import Mathlib

/-!
Verification development for the downtime-tracking application.

The core of the repository is embedded shallowly:
* Python dicts become association lists with insert-in-place-or-append
  semantics (`dinsert`), matching CPython's ordered dicts.
* Timestamps become rationals (seconds); `datetime.fromisoformat` results
  are modelled by `IsoStr` (a parseable string carrying its time, or an
  unparseable one); missing/null/empty fields are `Option.none`.
* Exceptions become `Except PyErr`; code that catches all exceptions is
  total.

Sources embedded: `src/core/app_state.py`, `src/core/downtime_logger.py`,
`src/dev/logger.py`, `src/dev_py38/state.py`, `src/dev_py38/logger.py`,
`src/core/operator_station_map.py`, `src/core/operator_movement_logger.py`.
-/

set_option maxHeartbeats 1000000

/-- Timestamps, in seconds (Python datetimes have sub-second resolution,
hence rationals rather than integers). -/
abbrev Time := ℚ

/-- Python `round(q, 2)`: round to two decimal places. (Python rounds
ties to even; `round` here rounds ties up.  Every statement below uses
`round2` on both the code side and the spec side, so the tie policy is
never load-bearing.) -/
def round2 (q : ℚ) : ℚ := ((round (q * 100) : ℤ) : ℚ) / 100

section PyDict

variable {α : Type} {β : Type} [DecidableEq α]

/-- Keys of an association list, in order. -/
def dkeys (m : List (α × β)) : List α := m.map Prod.fst

/-- The in-place replacement a Python dict performs when assigning to an
existing key: the pair keeps its position, only the value changes. -/
def dreplace (m : List (α × β)) (k : α) (v : β) : List (α × β) :=
  m.map (fun p => if p.1 = k then (k, v) else p)

/-- Python `d[k] = v`: replace the value in place if the key is present
(keeping its position), otherwise append the new pair. -/
def dinsert (m : List (α × β)) (k : α) (v : β) : List (α × β) :=
  if k ∈ dkeys m then dreplace m k v else m ++ [(k, v)]

/-- Python `d.get(k)`. -/
def dget (m : List (α × β)) (k : α) : Option β :=
  (m.find? (fun p => decide (p.1 = k))).map Prod.snd

/-- Python `d.pop(k, None)` (the resulting dict). -/
def dpop (m : List (α × β)) (k : α) : List (α × β) :=
  m.filter (fun p => decide (p.1 ≠ k))

end PyDict

/-! ### Data model (src/core/downtime_logger.py entry dicts, §3 of the spec) -/

/-- A string field that `datetime.fromisoformat` is applied to: either a
parseable ISO-8601 timestamp (carrying the instant it denotes) or an
unparseable non-empty string (`fromisoformat` raises `ValueError`).
A missing key, a JSON `null` and the empty string (all falsy in the
Python code's `if not start_time_str` checks) are modelled by wrapping
in `Option` with value `none`. -/
inductive IsoStr : Type
  | valid (t : Time)
  | invalid
deriving DecidableEq

/-- One element of a day log (the JSON objects written by
`DowntimeLogger`): fields are `Option`al because the code accesses them
with `dict.get`. -/
structure Entry : Type where
  id : Option String
  station : Option String
  operator : Option String
  downtime : Option String
  category : Option String
  start_time : Option IsoStr
  end_time : Option Time
  duration_minutes : Option ℚ
deriving DecidableEq

/-- Python exceptions that the embedding distinguishes. -/
inductive PyErr : Type
  | typeError
  | valueError
  | ioError
deriving DecidableEq

/-! ### Downtime State Machine (`AppState`, src/core/app_state.py and
src/dev_py38/state.py) -/

/-- One value of `AppState.active_downtimes`: the dict
`{"id": event_id, "date_str": date_str}` built in `start_downtime` /
`load_active_downtimes_from_log` (both keys are always set to non-None
strings by every writer). -/
structure DowntimeInfo : Type where
  id : String
  date_str : String
deriving DecidableEq

/-- `AppState.active_downtimes`: operator name → open-event info. -/
abbrev Index := List (String × DowntimeInfo)

/-- `AppState.can_start_downtime` (identical in core and dev_py38):
`[op for op in operators if op in self.active_downtimes]`. -/
def can_start_downtime (st : Index) (operators : List String) : List String :=
  operators.filter (fun op => decide (op ∈ dkeys st))

/-- `AppState.is_downtime_active`. -/
def is_downtime_active (st : Index) (operator : String) : Bool :=
  decide (operator ∈ dkeys st)

/-- The fold step of `AppState.load_active_downtimes_from_log`: for an
entry with `end_time is None`, if `operator` and `event_id` are truthy,
`self.active_downtimes[operator] = {"id": event_id, "date_str": date_str}`. -/
def loadStep (date_str : String) (acc : Index) (entry : Entry) : Index :=
  if entry.end_time = none then
    match entry.operator, entry.id with
    | some op, some i => if op ≠ "" ∧ i ≠ "" then dinsert acc op ⟨i, date_str⟩ else acc
    | some _, none => acc
    | none, _ => acc
  else acc

/-- `AppState.load_active_downtimes_from_log` (core variant,
src/core/app_state.py:26-45): `self.active_downtimes.clear()` then scan
today's log.  The prior index `_st` is discarded by the `clear()`. -/
def load_active_downtimes_from_log (date_str : String) (raw_log : List Entry)
    (_st : Index) : Index :=
  raw_log.foldl (loadStep date_str) []

/-- `AppState.start_downtime` index effect (identical zip in core
src/core/app_state.py:84-92 and dev_py38 src/dev_py38/state.py:53-63):
`for operator, event_id in zip(operators, ids): self.active_downtimes[operator] = ...`.
`ids` is whatever list `logger.log_downtime_start` returned. -/
def start_downtime (date_str : String) (operators ids : List String)
    (st : Index) : Index :=
  (operators.zip ids).foldl (fun acc p => dinsert acc p.1 ⟨p.2, date_str⟩) st

/-- The index effect of `stop_downtime` shared by both variants:
`for operator in operators: self.active_downtimes.pop(operator, None)`. -/
def stop_downtime_index (operators : List String) (st : Index) : Index :=
  operators.foldl (fun acc op => dpop acc op) st

/-- `AppState.stop_downtime`, core variant (src/core/app_state.py:94-113).
It collects `info["id"]` for retrievable operators and then runs
`self.logger.log_downtime_stop(downtime_ids)` — but the core
`DowntimeLogger.log_downtime_stop(self, date_str, downtime_ids)` requires
two arguments, so whenever `downtime_ids` is non-empty Python raises
`TypeError: log_downtime_stop() missing 1 required positional argument`
before the index entries are popped. -/
def core_stop_downtime (st : Index) (operators : List String) :
    Except PyErr Index :=
  let downtime_ids := operators.foldl (fun acc op =>
    match dget st op with
    | some info => if info.id ≠ "" then acc ++ [info.id] else acc
    | none => acc) []
  if downtime_ids = [] then
    Except.ok (stop_downtime_index operators st)
  else
    Except.error PyErr.typeError

/-- One presentation-layer command against the Downtime State Machine;
the `ids` of a `start` are the list the Event Log Store returned. -/
inductive AppOp : Type
  | start (date_str : String) (operators ids : List String)
  | stop (operators : List String)
  | restore (date_str : String) (raw_log : List Entry)

/-- Effect of one command on `active_downtimes`. -/
def appStep (st : Index) : AppOp → Index
  | AppOp.start d ops ids => start_downtime d ops ids st
  | AppOp.stop ops => stop_downtime_index ops st
  | AppOp.restore d log => load_active_downtimes_from_log d log st

/-- Run a sequence of commands from the initial (empty) index. -/
def runOps (ops : List AppOp) : Index := ops.foldl appStep []

/-! ### Event Log Store (`DowntimeLogger`, src/core/downtime_logger.py) -/

/-- Look an entry up in a day log by id (the log is a JSON array; with
the data model's unique ids this matches the dict the code builds). -/
def lookupById (log : List Entry) (i : String) : Option Entry :=
  log.find? (fun e => decide (e.id = some i))

/-- The dict `{entry.get("id"): entry for entry in log_data if "id" in entry}`
built by `log_downtime_stop` (entries without an id are dropped; the id
keys are uuid4 strings, so in any log the store itself wrote they are
distinct). -/
def buildLogMap (log_data : List Entry) : List (String × Entry) :=
  log_data.foldl (fun m e =>
    match e.id with
    | some i => dinsert m i e
    | none => m) []

/-- The in-place mutation closing one entry:
`entry["end_time"] = now.isoformat()`,
`entry["duration_minutes"] = round((now - start_time).total_seconds() / 60, 2)`. -/
def closeEntry (e : Entry) (now start : Time) : Entry :=
  { e with end_time := some now,
           duration_minutes := some (round2 ((now - start) / 60)) }

/-- Intermediate state of the `for eid in downtime_ids` loop of
`log_downtime_stop`: the (mutable) id→entry map and `updated_ids`. -/
structure StopState : Type where
  m : List (String × Entry)
  upd : List String

/-- The `for eid in downtime_ids` loop of `log_downtime_stop`
(src/core/downtime_logger.py:227-238).  The returned Bool records
whether `datetime.fromisoformat` raised on a malformed `start_time`
(the exception aborts the loop; the outer `except` catches it). -/
def stopRun (now : Time) (s : StopState) : List String → StopState × Bool
  | [] => (s, false)
  | eid :: rest =>
    match dget s.m eid with
    | none => stopRun now s rest
    | some e =>
      if e.end_time = none then
        match e.start_time with
        | none => stopRun now s rest
        | some IsoStr.invalid => (s, true)
        | some (IsoStr.valid start) =>
            stopRun now ⟨dinsert s.m eid (closeEntry e now start), s.upd ++ [eid]⟩ rest
      else stopRun now s rest

/-- `DowntimeLogger.log_downtime_stop` (src/core/downtime_logger.py:203-244)
over an already-loaded day log: returns the persisted day log and
`updated_ids`.  If the loop raised (malformed `start_time`), the outer
`except` catches it, `save_log` is never reached, so the stored log is
unchanged while the partially accumulated `updated_ids` is still
returned.  Otherwise the entries named in `updated_ids` are persisted
via `save_log(..., mode="update")`, i.e. replaced by id. -/
def core_log_downtime_stop (now : Time) (log_data : List Entry)
    (downtime_ids : List String) : List Entry × List String :=
  let r := stopRun now ⟨buildLogMap log_data, []⟩ downtime_ids
  if r.2 then
    (log_data, r.1.upd)
  else
    (log_data.map (fun e =>
      match e.id with
      | some i => if i ∈ r.1.upd then (dget r.1.m i).getD e else e
      | none => e), r.1.upd)

/-- The entry dict `log_downtime_start` builds for one operator
(src/core/downtime_logger.py:188-197). -/
def mkStartEntry (entry_id station operator downtime category : String)
    (now : Time) : Entry :=
  { id := some entry_id, station := some station, operator := some operator,
    downtime := some downtime, category := some category,
    start_time := some (IsoStr.valid now), end_time := none,
    duration_minutes := none }

/-! #### Persistence boundary (failure model for §4.2 / §7)

One call's interaction with durable storage is abstracted by the outcome
the environment hands the code: what reading the local day file yields,
what the optional HTTP server replies, and whether writing fails. -/

/-- Outcome of reading the local day-log file. -/
inductive DiskRead : Type
  | absent
  | good (entries : List Entry)
  | bad
deriving DecidableEq

/-- Outcome of `GET /log` when a `server_url` is configured. -/
inductive ServerRead : Type
  | noServer
  | okList (entries : List Entry)
  | badFormat
  | failed
deriving DecidableEq

/-- The local branch of `load_log`: missing file → `[]`; unreadable or
malformed JSON → caught, logged, `[]`. -/
def local_load_log : DiskRead → List Entry
  | DiskRead.absent => []
  | DiskRead.good entries => entries
  | DiskRead.bad => []

/-- `DowntimeLogger.load_log` (src/core/downtime_logger.py:61-91): the
server payload is returned when it is a list; a non-list payload or a
request failure falls through to the local file; every failure path is
caught inside the method. -/
def core_load_log (srv : ServerRead) (disk : DiskRead) :
    Except PyErr (List Entry) :=
  match srv with
  | ServerRead.okList entries => Except.ok entries
  | ServerRead.noServer => Except.ok (local_load_log disk)
  | ServerRead.badFormat => Except.ok (local_load_log disk)
  | ServerRead.failed => Except.ok (local_load_log disk)

/-- `DowntimeLogger.load_log` of the dev variant (src/dev/logger.py:24-29):
the `path.open`/`json.load` calls are not wrapped in `try`, so a
read/parse failure propagates to the caller. -/
def dev_load_log : DiskRead → Except PyErr (List Entry)
  | DiskRead.absent => Except.ok []
  | DiskRead.good entries => Except.ok entries
  | DiskRead.bad => Except.error PyErr.ioError

/-- `save_log` mode (an invalid mode string raises `ValueError`, but all
call sites pass one of these two literals). -/
inductive SaveMode : Type
  | append
  | update
deriving DecidableEq

/-- `save_log(..., mode="update")`'s read-modify-write on the stored
list: a dict keyed by id is built from the stored entries, the given
entries overwrite by id (upsert), and `list(log_map.values())` is
written back. -/
def applyUpdateSave (logs log_entries : List Entry) : List Entry :=
  let log_map := buildLogMap logs
  let m2 := log_entries.foldl (fun m e =>
    match e.id with
    | some i => if i ≠ "" then dinsert m i e else m
    | none => m) log_map
  m2.map Prod.snd

/-- `DowntimeLogger.save_log` (src/core/downtime_logger.py:93-158),
returning the resulting local-file state.  With a server configured the
local file is untouched (entries are POSTed/PUT, all failures caught);
locally, the file is re-read (an unreadable file degrades to `[]`),
modified, and written unless the write fails — and every failure is
caught inside the method. -/
def core_save_log (server : Bool) (log_entries : List Entry)
    (mode : SaveMode) (disk : DiskRead) (writeFails : Bool) :
    Except PyErr DiskRead :=
  if log_entries = [] then Except.ok disk
  else if server then Except.ok disk
  else
    let logs := local_load_log disk
    let newLogs :=
      match mode with
      | SaveMode.append => logs ++ log_entries
      | SaveMode.update => applyUpdateSave logs log_entries
    if writeFails then Except.ok disk else Except.ok (DiskRead.good newLogs)

/-- `DowntimeLogger.log_downtime_start`
(src/core/downtime_logger.py:160-201): one uuid per operator (modelled
by `gen`), `category = EVENTS.get(downtime, "Unknown")`, one
`save_log([entry], ..., mode="append")` per operator; the whole body is
wrapped in `try`, and the generated ids are returned even when

persistence failed. -/
def core_log_downtime_start (gen : Nat → String)
    (events : String → Option String) (now : Time)
    (station downtime : String) (operators : List String)
    (server : Bool) (disk : DiskRead) (writeFails : Bool) :
    Except PyErr (DiskRead × List String) :=
  let category := (events downtime).getD "Unknown"
  let entries := (List.range operators.length).zip operators |>.map
    (fun p => mkStartEntry (gen p.1) station p.2 downtime category now)
  let d2 := entries.foldl (fun d e =>
    match core_save_log server [e] SaveMode.append d writeFails with
    | Except.ok dNew => dNew
    | Except.error _ => d) disk
  Except.ok (d2, (List.range operators.length).map gen)

/-! ### `AppState.get_daily_log` (src/core/app_state.py:115-158) -/

/-- Presentation status derived per event: the code renders `live` as
the string `"Live"` and `done` as a check-mark glyph. -/
inductive Status : Type
  | live
  | done
deriving DecidableEq

/-- One element of the processed list `get_daily_log` builds. -/
structure ProcEntry : Type where
  timestamp : Option Time
  category : String
  event : String
  operator : String
  station : String
  end_time : Option Time
  duration_minutes : Option ℚ
  status : Status
deriving DecidableEq

/-- The body of the `for entry in raw_log` loop of the core
`get_daily_log`: `entry.get("start_time")` is parsed only
`if isinstance(timestamp_str, str)`; a missing/null value is NOT a
string, so it is passed through as the timestamp (no exception, entry
kept); an unparseable string raises inside the `try` and the entry is
skipped.  `status = "Live" if not end_time else "✔️"`. -/
def core_process_entry (e : Entry) : Option ProcEntry :=
  match e.start_time with
  | some IsoStr.invalid => none
  | some (IsoStr.valid t) =>
      some { timestamp := some t,
             category := e.category.getD "Unknown",
             event := e.downtime.getD "Unknown",
             operator := e.operator.getD "Unknown",
             station := e.station.getD "Unknown",
             end_time := e.end_time,
             duration_minutes := e.duration_minutes,
             status := if e.end_time = none then Status.live else Status.done }
  | none =>
      some { timestamp := none,
             category := e.category.getD "Unknown",
             event := e.downtime.getD "Unknown",
             operator := e.operator.getD "Unknown",
             station := e.station.getD "Unknown",
             end_time := e.end_time,
             duration_minutes := e.duration_minutes,
             status := if e.end_time = none then Status.live else Status.done }

/-- `processed.sort(key=lambda e: e["timestamp"])`: CPython's Timsort
compares keys with `<`.  With at most one element no comparison happens;
with two or more, every element takes part in at least one comparison,
and any comparison involving `None` raises
`TypeError: '<' not supported between instances of ... and 'NoneType'`,
which `get_daily_log` does not catch.  When all keys are datetimes the
sort is a stable ascending sort. -/
def pySortByTimestamp (ps : List ProcEntry) : Except PyErr (List ProcEntry) :=
  if ps.length ≤ 1 then Except.ok ps
  else if ps.all (fun p => p.timestamp.isSome) then
    Except.ok (ps.mergeSort (fun a b =>
      decide (a.timestamp.getD 0 ≤ b.timestamp.getD 0)))
  else Except.error PyErr.typeError

/-- The core `AppState.get_daily_log` over an already-loaded day log. -/
def core_get_daily_log (raw_log : List Entry) : Except PyErr (List ProcEntry) :=
  pySortByTimestamp (raw_log.filterMap core_process_entry)

/-- The dev_py38 `AppState.get_daily_log` loop body
(src/dev_py38/state.py:95-113): `entry.get("start_time") or ""` is fed
to `fromisoformat`, so a missing/null/empty or unparseable value raises
`ValueError` inside the `try` and the entry is skipped; no `status`
field is built in this variant. -/
def dev38_process_entry (e : Entry) : Option ProcEntry :=
  match e.start_time with
  | some (IsoStr.valid t) =>
      some { timestamp := some t,
             category := e.category.getD "Unknown",
             event := e.downtime.getD "Unknown",
             operator := e.operator.getD "Unknown",
             station := e.station.getD "Unknown",
             end_time := e.end_time,
             duration_minutes := e.duration_minutes,
             status := if e.end_time = none then Status.live else Status.done }
  | some IsoStr.invalid => none
  | none => none

/-! ### Operator-Station Map (src/core/operator_station_map.py) -/

/-- Persisted state of `OperatorStationMap`: the JSON mapping file and
the `operator_station_map_last_cleared.txt` marker (`none` when the
marker is missing or unreadable). -/
structure MapState : Type where
  assignments : List (String × String)
  lastCleared : Option String
deriving DecidableEq

/-- `OperatorStationMap.set` (reload, assign, save). -/
def osm_set (s : MapState) (operator station : String) : MapState :=
  { s with assignments := dinsert s.assignments operator station }

/-- `OperatorStationMap.remove`. -/
def osm_remove (s : MapState) (operator : String) : MapState :=
  { s with assignments := dpop s.assignments operator }

/-- `OperatorStationMap.daily_clear_if_needed`
(src/core/operator_station_map.py:164-178): compare the persisted
last-cleared date with today's date from the clock source; if they
differ, `clear()` the map and record today. -/
def daily_clear_if_needed (today : String) (s : MapState) : MapState :=
  if s.lastCleared = some today then s
  else { assignments := [], lastCleared := some today }

/-- Mutations that can hit the map between two `daily_clear_if_needed`
calls. -/
inductive MapOp : Type
  | set (operator station : String)
  | remove (operator : String)

/-- Apply a sequence of map mutations. -/
def applyMapOps (s : MapState) (ops : List MapOp) : MapState :=
  ops.foldl (fun acc o =>
    match o with
    | MapOp.set op st => osm_set acc op st
    | MapOp.remove op => osm_remove acc op) s

/-! ### Movement/Sign-in Log (src/core/operator_movement_logger.py) -/

/-- One row of the `operator_events` table. -/
structure MoveEvent : Type where
  operator : String
  station : String
  time : Time
  state : String
deriving DecidableEq

/-- The `SELECT state ... WHERE operator=%s ORDER BY event_time DESC
LIMIT 1` of `log_event`: rows are inserted with `event_time = now()`,
which is nondecreasing in insertion order, so the latest row for an
operator is the last one inserted. -/
def lastStateOf (db : List MoveEvent) (operator : String) : Option String :=
  ((db.filter (fun e => decide (e.operator = operator))).getLast?).map
    MoveEvent.state

/-- `OperatorMovementLogger.log_event`
(src/core/operator_movement_logger.py:20-48): if the operator's most
recent prior row already has the requested state, no row is inserted
and `False` is returned; otherwise one row
`(operator, station, now, state)` is inserted and `True` is returned. -/
def log_event (db : List MoveEvent) (operator station state : String)
    (now : Time) : List MoveEvent × Bool :=
  if lastStateOf db operator = some state then (db, false)
  else (db ++ [⟨operator, station, now, state⟩], true)


/-! ### Derived views used by the statements -/

/-- The index pair `load_active_downtimes_from_log` produces for one
entry, when it produces one: the entry is open (`end_time is None`) and
its `operator` and `id` are truthy. -/
def openEntryPair (date_str : String) (e : Entry) :
    Option (String × DowntimeInfo) :=
  if e.end_time = none then
    match e.operator, e.id with
    | some op, some i =>
        if op ≠ "" ∧ i ≠ "" then some (op, ⟨i, date_str⟩) else none
    | some _, none => none
    | none, _ => none
  else none

/-- The operator key of `openEntryPair` (independent of the date). -/
def openKey (e : Entry) : Option String :=
  if e.end_time = none then
    match e.operator, e.id with
    | some op, some i => if op ≠ "" ∧ i ≠ "" then some op else none
    | some _, none => none
    | none, _ => none
  else none

/-- Generic shape shared by the dict-building folds of the code
(`active_downtimes` rebuild, `log_map` construction): per element,
either insert one key-value pair or skip. -/
def kvFoldStep {β : Type} (f : Entry → Option (String × β))
    (acc : List (String × β)) (e : Entry) : List (String × β) :=
  match f e with
  | some p => dinsert acc p.1 p.2
  | none => acc

/-- The key-value pair `buildLogMap` inserts for one entry. -/
def idPair (e : Entry) : Option (String × Entry) :=
  e.id.map (fun i => (i, e))

/-- The by-id substitution `save_log(mode="update")` applies to the
stored day log after a successful `log_downtime_stop` loop. -/
def substClosed (m2 : List (String × Entry)) (upd : List String)
    (e : Entry) : Entry :=
  match e.id with
  | some i => if i ∈ upd then (dget m2 i).getD e else e
  | none => e

/-! ### Concrete inputs used by counterexamples and witnesses -/

/-- An open entry with a missing `start_time` (key absent or JSON
null): legal in a day log per §8.9's corrupt-entry scenario. -/
def c4Entry : Entry :=
  { id := some "a", station := some "S", operator := some "A",
    downtime := some "R", category := some "C", start_time := none,
    end_time := none, duration_minutes := none }

/-- A closed entry, for the C4 witness. -/
def c4Closed : Entry :=
  { id := some "c", station := some "S", operator := some "C",
    downtime := some "R", category := some "C",
    start_time := some (IsoStr.valid 10), end_time := some 70,
    duration_minutes := some 1 }

/-- An open well-formed entry, for the C4 witness. -/
def c4Open : Entry :=
  { id := some "b", station := some "S", operator := some "B",
    downtime := some "R", category := some "C",
    start_time := some (IsoStr.valid 100), end_time := none,
    duration_minutes := none }

/-- A corrupt entry whose `start_time` is missing, for C5. -/
def c5Corrupt : Entry :=
  { id := some "x", station := some "S", operator := some "A",
    downtime := some "R", category := some "C", start_time := none,
    end_time := none, duration_minutes := none }

/-- A well-formed entry, for C5. -/
def c5Good : Entry :=
  { id := some "y", station := some "S", operator := some "B",
    downtime := some "R", category := some "C",
    start_time := some (IsoStr.valid 100), end_time := none,
    duration_minutes := none }

/-- An open well-formed entry starting at time 0, for the C7 witness. -/
def c7Open : Entry :=
  { id := some "a", station := some "S", operator := some "A",
    downtime := some "R", category := some "C",
    start_time := some (IsoStr.valid 0), end_time := none,
    duration_minutes := none }

/-- An open well-formed entry for the C2 witness. -/
def c2Open : Entry :=
  { id := some "a", station := some "S", operator := some "Alice",
    downtime := some "R", category := some "C",
    start_time := some (IsoStr.valid 5), end_time := none,
    duration_minutes := none }

/-- A closed entry for the C2 witness. -/
def c2Closed : Entry :=
  { id := some "b", station := some "S", operator := some "Bob",
    downtime := some "R", category := some "C",
    start_time := some (IsoStr.valid 1), end_time := some 2,
    duration_minutes := some (1 / 60) }


/-- Invariant of the id-to-entry dict inside `log_downtime_stop`: every
binding maps an id to an entry carrying that id, with no malformed
`start_time` string (the hypothesis under which the loop cannot raise). -/
def MInv (m : List (String × Entry)) : Prop :=
  ∀ i e, dget m i = some e →
    e.id = some i ∧ e.start_time ≠ some IsoStr.invalid


/-! ## Lemma library -/

section PyDictLemmas

variable {α : Type} {β : Type} [DecidableEq α]

theorem dget_cons (p : α × β) (m : List (α × β)) (k : α) :
    dget (p :: m) k = if p.1 = k then some p.2 else dget m k := by
  by_cases h : p.1 = k
  · simp [dget, List.find?, h]
  · simp [dget, List.find?, h]

theorem dkeys_dreplace (m : List (α × β)) (k : α) (v : β) :
    dkeys (dreplace m k v) = dkeys m := by
  simp only [dkeys, dreplace, List.map_map]
  refine List.map_congr_left ?_
  intro p _
  by_cases hp : p.1 = k
  · simp [hp]
  · simp [hp]

theorem dkeys_dinsert (m : List (α × β)) (k : α) (v : β) :
    dkeys (dinsert m k v) = if k ∈ dkeys m then dkeys m else dkeys m ++ [k] := by
  rw [dinsert]
  by_cases h : k ∈ dkeys m
  · rw [if_pos h, if_pos h, dkeys_dreplace m k v]
  · rw [if_neg h, if_neg h]
    simp [dkeys]

theorem nodup_dkeys_dinsert (m : List (α × β)) (k : α) (v : β)
    (h : (dkeys m).Nodup) : (dkeys (dinsert m k v)).Nodup := by
  rw [dkeys_dinsert]
  by_cases hk : k ∈ dkeys m
  · simpa [hk] using h
  · simp only [if_neg hk]
    refine List.Nodup.append h (List.nodup_singleton k) ?_
    intro a ha hb
    simp only [List.mem_singleton] at hb
    exact hk (hb ▸ ha)

theorem dget_dreplace_self (m : List (α × β)) (k : α) (v : β) (h : k ∈ dkeys m) :
    dget (dreplace m k v) k = some v := by
  induction m with
  | nil => simp [dkeys] at h
  | cons p m ih =>
    by_cases hp : p.1 = k
    · simp [dreplace, dget_cons, hp]
    · have h2 : k ∈ dkeys m := by
        rw [dkeys, List.map_cons, List.mem_cons] at h
        rcases h with h1 | h1
        · exact absurd h1.symm hp
        · exact h1
      rw [dreplace, List.map_cons, if_neg hp, dget_cons, if_neg hp]
      exact ih h2

theorem dget_dreplace_ne (m : List (α × β)) (k k2 : α) (v : β) (h : k2 ≠ k) :
    dget (dreplace m k v) k2 = dget m k2 := by
  induction m with
  | nil => rfl
  | cons p m ih =>
    rw [dreplace, List.map_cons]
    by_cases hp : p.1 = k
    · rw [if_pos hp, dget_cons, dget_cons,
        if_neg (show ¬ ((k, v).1 = k2) from fun hh => (Ne.symm h) hh),
        if_neg (show ¬ (p.1 = k2) from fun hh => (Ne.symm h) (hp.symm.trans hh))]
      exact ih
    · rw [if_neg hp, dget_cons, dget_cons]
      by_cases hp2 : p.1 = k2
      · rw [if_pos hp2, if_pos hp2]
      · rw [if_neg hp2, if_neg hp2]
        exact ih

theorem dget_append_right (m : List (α × β)) (l : List (α × β)) (k : α)
    (h : k ∉ dkeys m) : dget (m ++ l) k = dget l k := by
  induction m with
  | nil => rfl
  | cons p m ih =>
    have hp : p.1 ≠ k := fun hpk => h (by simp [dkeys, hpk])
    have h2 : k ∉ dkeys m := fun hx => h (by simp [dkeys] at hx ⊢; exact Or.inr hx)
    rw [List.cons_append, dget_cons, if_neg hp]
    exact ih h2

theorem dget_dinsert_self (m : List (α × β)) (k : α) (v : β) :
    dget (dinsert m k v) k = some v := by
  by_cases h : k ∈ dkeys m
  · simp [dinsert, if_pos h, dget_dreplace_self m k v h]
  · rw [dinsert, if_neg h, dget_append_right m _ k h]
    simp [dget_cons]

theorem dget_append_single_ne (m : List (α × β)) (k k2 : α) (v : β) (h : k2 ≠ k) :
    dget (m ++ [(k, v)]) k2 = dget m k2 := by
  induction m with
  | nil =>
    rw [List.nil_append, dget_cons, if_neg (Ne.symm h)]
  | cons p m ih =>
    rw [List.cons_append, dget_cons, dget_cons]
    by_cases hp2 : p.1 = k2
    · simp [hp2]
    · simpa [hp2] using ih

theorem dget_dinsert_ne (m : List (α × β)) (k k2 : α) (v : β) (h : k2 ≠ k) :
    dget (dinsert m k v) k2 = dget m k2 := by
  by_cases hk : k ∈ dkeys m
  · simp [dinsert, if_pos hk, dget_dreplace_ne m k k2 v h]
  · rw [dinsert, if_neg hk]
    exact dget_append_single_ne m k k2 v h

theorem dget_eq_none_of_not_mem (m : List (α × β)) (k : α) (h : k ∉ dkeys m) :
    dget m k = none := by
  induction m with
  | nil => rfl
  | cons p m ih =>
    have hp : p.1 ≠ k := fun hpk => h (by simp [dkeys, hpk])
    have h2 : k ∉ dkeys m := fun hx => h (by simp [dkeys] at hx ⊢; exact Or.inr hx)
    rw [dget_cons, if_neg hp]
    exact ih h2

theorem mem_dkeys_of_dget_isSome (m : List (α × β)) (k : α)
    (h : (dget m k).isSome) : k ∈ dkeys m := by
  by_contra hk
  rw [dget_eq_none_of_not_mem m k hk] at h
  simp at h

theorem dpop_cons (p : α × β) (m : List (α × β)) (k : α) :
    dpop (p :: m) k = if p.1 = k then dpop m k else p :: dpop m k := by
  by_cases hp : p.1 = k
  · simp [dpop, List.filter_cons, hp]
  · simp [dpop, List.filter_cons, hp]

theorem dget_dpop (m : List (α × β)) (k k2 : α) :
    dget (dpop m k) k2 = if k2 = k then none else dget m k2 := by
  induction m with
  | nil => simp [dpop, dget]
  | cons p m ih =>
    rw [dpop_cons]
    by_cases hp : p.1 = k
    · rw [if_pos hp, ih]
      by_cases h2 : k2 = k
      · rw [if_pos h2, if_pos h2]
      · rw [if_neg h2, if_neg h2, dget_cons,
          if_neg (show ¬ (p.1 = k2) from fun hh => h2 ((hp.symm.trans hh).symm))]
    · rw [if_neg hp, dget_cons]
      by_cases hp2 : p.1 = k2
      · rw [if_pos hp2]
        have hk2 : ¬ (k2 = k) := fun hh => hp (hp2.symm ▸ hh : p.1 = k)
        rw [if_neg hk2, dget_cons, if_pos hp2]
      · rw [if_neg hp2, ih, dget_cons, if_neg hp2]

theorem nodup_dkeys_dpop (m : List (α × β)) (k : α)
    (h : (dkeys m).Nodup) : (dkeys (dpop m k)).Nodup := by
  have hsub : List.Sublist (dkeys (dpop m k)) (dkeys m) :=
    List.Sublist.map Prod.fst (List.filter_sublist m)
  exact List.Nodup.sublist hsub h


end PyDictLemmas
section FoldLemmas

theorem dkeys_append {α β : Type} (m l : List (α × β)) :
    dkeys (m ++ l) = dkeys m ++ dkeys l := by
  simp [dkeys]

theorem foldlCongr {σ γ : Type} (f g : σ → γ → σ)
    (h : ∀ s x, f s x = g s x) : ∀ (l : List γ) (s : σ),
      l.foldl f s = l.foldl g s := by
  intro l
  induction l with
  | nil => intro s; rfl
  | cons x xs ih =>
    intro s
    rw [List.foldl_cons, List.foldl_cons, h s x]
    exact ih (g s x)

theorem loadStep_eq_kvFoldStep (date_str : String) (acc : Index) (e : Entry) :
    loadStep date_str acc e = kvFoldStep (openEntryPair date_str) acc e := by
  unfold loadStep kvFoldStep openEntryPair
  by_cases he : e.end_time = none
  · rw [if_pos he, if_pos he]
    cases ho : e.operator with
    | none => rfl
    | some op =>
      cases hi : e.id with
      | none => rfl
      | some i =>
        by_cases ht : op ≠ "" ∧ i ≠ ""
        · simp [ht]
        · simp [ht]
  · rw [if_neg he, if_neg he]

theorem openKey_eq_pair_fst (date_str : String) (e : Entry) :
    (openEntryPair date_str e).map Prod.fst = openKey e := by
  unfold openEntryPair openKey
  by_cases he : e.end_time = none
  · rw [if_pos he, if_pos he]
    cases ho : e.operator with
    | none => rfl
    | some op =>
      cases hi : e.id with
      | none => rfl
      | some i =>
        by_cases ht : op ≠ "" ∧ i ≠ ""
        · simp [ht]
        · simp [ht]
  · rw [if_neg he, if_neg he]
    rfl

theorem foldl_kvFoldStep_eq {β : Type} (f : Entry → Option (String × β)) :
    ∀ (log : List Entry) (acc : List (String × β)),
      (dkeys acc ++ log.filterMap (fun e => (f e).map Prod.fst)).Nodup →
      log.foldl (kvFoldStep f) acc = acc ++ log.filterMap f := by
  intro log
  induction log with
  | nil =>
    intro acc _
    simp
  | cons e rest ih =>
    intro acc h
    cases hf : f e with
    | none =>
      have hkeys : (e :: rest).filterMap (fun x => (f x).map Prod.fst)
          = rest.filterMap (fun x => (f x).map Prod.fst) := by
        simp [List.filterMap_cons, hf]
      rw [hkeys] at h
      have hstep : kvFoldStep f acc e = acc := by
        simp [kvFoldStep, hf]
      rw [List.foldl_cons, hstep, List.filterMap_cons, hf]
      exact ih acc h
    | some p =>
      have hkeys : (e :: rest).filterMap (fun x => (f x).map Prod.fst)
          = p.1 :: rest.filterMap (fun x => (f x).map Prod.fst) := by
        simp [List.filterMap_cons, hf]
      rw [hkeys] at h
      have hp1 : p.1 ∉ dkeys acc := by
        have hd := List.disjoint_of_nodup_append h
        intro hmem
        exact (hd hmem) (List.mem_cons_self _ _)
      have hstep : kvFoldStep f acc e = acc ++ [p] := by
        simp only [kvFoldStep, hf]
        rw [dinsert, if_neg hp1]
      have h2 : (dkeys (acc ++ [p])
          ++ rest.filterMap (fun x => (f x).map Prod.fst)).Nodup := by
        rw [dkeys_append]
        have hsing : dkeys [p] = [p.1] := rfl
        rw [hsing, List.append_assoc, List.singleton_append]
        exact h
      rw [List.foldl_cons, hstep, List.filterMap_cons, hf,
        ih (acc ++ [p]) h2, List.append_assoc, List.singleton_append]

theorem load_active_eq (date_str : String) (log : List Entry) (st : Index)
    (h : (log.filterMap openKey).Nodup) :
    load_active_downtimes_from_log date_str log st
      = log.filterMap (openEntryPair date_str) := by
  unfold load_active_downtimes_from_log
  rw [foldlCongr (loadStep date_str) (kvFoldStep (openEntryPair date_str))
    (loadStep_eq_kvFoldStep date_str) log []]
  apply foldl_kvFoldStep_eq
  have hfun : (fun e => (openEntryPair date_str e).map Prod.fst) = openKey :=
    funext (openKey_eq_pair_fst date_str)
  rw [hfun]
  simpa using h

theorem buildStep_eq_kvFoldStep (m : List (String × Entry)) (e : Entry) :
    (match e.id with
     | some i => dinsert m i e
     | none => m) = kvFoldStep idPair m e := by
  unfold kvFoldStep idPair
  cases e.id with
  | none => rfl
  | some i => rfl

theorem idPair_fst (e : Entry) : (idPair e).map Prod.fst = e.id := by
  unfold idPair
  cases e.id with
  | none => rfl
  | some i => rfl

theorem buildLogMap_eq (log : List Entry)
    (hnd : (log.filterMap Entry.id).Nodup) :
    buildLogMap log = log.filterMap idPair := by
  unfold buildLogMap
  rw [foldlCongr _ (kvFoldStep idPair) buildStep_eq_kvFoldStep log []]
  apply foldl_kvFoldStep_eq
  have hfun : (fun e => (idPair e).map Prod.fst) = Entry.id :=
    funext idPair_fst
  rw [hfun]
  simpa using hnd

theorem lookupById_cons (e : Entry) (rest : List Entry) (i : String) :
    lookupById (e :: rest) i
      = if e.id = some i then some e else lookupById rest i := by
  by_cases h : e.id = some i
  · simp [lookupById, List.find?, h]
  · simp [lookupById, List.find?, h]

theorem dget_idPairs (log : List Entry) (i : String) :
    dget (log.filterMap idPair) i = lookupById log i := by
  induction log with
  | nil => rfl
  | cons e rest ih =>
    rw [lookupById_cons]
    cases he : e.id with
    | none =>
      have hpair : idPair e = none := by simp [idPair, he]
      rw [List.filterMap_cons, hpair, if_neg (by simp [he])]
      exact ih
    | some j =>
      have hpair : idPair e = some (j, e) := by simp [idPair, he]
      rw [List.filterMap_cons, hpair, dget_cons]
      by_cases hj : j = i
      · rw [if_pos hj, if_pos (by rw [hj])]
      · rw [if_neg hj, if_neg (fun hc => hj (Option.some.inj hc)), ih]

end FoldLemmas


section StopRunLemmas

theorem closeEntry_id (e : Entry) (now start : Time) :
    (closeEntry e now start).id = e.id := rfl

theorem closeEntry_start (e : Entry) (now start : Time) :
    (closeEntry e now start).start_time = e.start_time := rfl

theorem closeEntry_end (e : Entry) (now start : Time) :
    (closeEntry e now start).end_time = some now := rfl

theorem stopRun_cons (now : Time) (s : StopState) (eid : String)
    (rest : List String) :
    stopRun now s (eid :: rest)
      = match dget s.m eid with
        | none => stopRun now s rest
        | some e =>
          if e.end_time = none then
            match e.start_time with
            | none => stopRun now s rest
            | some IsoStr.invalid => (s, true)
            | some (IsoStr.valid start) =>
                stopRun now
                  ⟨dinsert s.m eid (closeEntry e now start), s.upd ++ [eid]⟩ rest
          else stopRun now s rest := rfl

theorem stopRun_cons_none (now : Time) (s : StopState) (eid : String)
    (rest : List String) (hd : dget s.m eid = none) :
    stopRun now s (eid :: rest) = stopRun now s rest := by
  simp [stopRun_cons, hd]

theorem stopRun_cons_closed (now : Time) (s : StopState) (eid : String)
    (rest : List String) (e : Entry) (hd : dget s.m eid = some e)
    (hend : ¬ e.end_time = none) :
    stopRun now s (eid :: rest) = stopRun now s rest := by
  simp [stopRun_cons, hd, hend]

theorem stopRun_cons_nostart (now : Time) (s : StopState) (eid : String)
    (rest : List String) (e : Entry) (hd : dget s.m eid = some e)
    (hend : e.end_time = none) (hst : e.start_time = none) :
    stopRun now s (eid :: rest) = stopRun now s rest := by
  simp [stopRun_cons, hd, hend, hst]

theorem stopRun_cons_invalid (now : Time) (s : StopState) (eid : String)
    (rest : List String) (e : Entry) (hd : dget s.m eid = some e)
    (hend : e.end_time = none) (hst : e.start_time = some IsoStr.invalid) :
    stopRun now s (eid :: rest) = (s, true) := by
  simp [stopRun_cons, hd, hend, hst]

theorem stopRun_cons_valid (now : Time) (s : StopState) (eid : String)
    (rest : List String) (e : Entry) (t : Time) (hd : dget s.m eid = some e)
    (hend : e.end_time = none) (hst : e.start_time = some (IsoStr.valid t)) :
    stopRun now s (eid :: rest)
      = stopRun now ⟨dinsert s.m eid (closeEntry e now t), s.upd ++ [eid]⟩ rest := by
  simp [stopRun_cons, hd, hend, hst]

theorem MInv_dinsert_close (m : List (String × Entry)) (eid : String)
    (e : Entry) (now t : Time) (hm : MInv m) (hd : dget m eid = some e) :
    MInv (dinsert m eid (closeEntry e now t)) := by
  intro j e2 hj
  by_cases hje : j = eid
  · subst hje
    rw [dget_dinsert_self] at hj
    obtain rfl : closeEntry e now t = e2 := Option.some.inj hj
    obtain ⟨h1, h2⟩ := hm j e hd
    exact ⟨by rw [closeEntry_id, h1], by rw [closeEntry_start]; exact h2⟩
  · rw [dget_dinsert_ne m eid j _ hje] at hj
    exact hm j e2 hj

theorem stopRun_untouched (now : Time) :
    ∀ (ids : List String) (s : StopState) (i : String),
      dget s.m i = none →
      dget (stopRun now s ids).1.m i = none
        ∧ ((i ∈ (stopRun now s ids).1.upd) ↔ i ∈ s.upd) := by
  intro ids
  induction ids with
  | nil =>
    intro s i h
    exact ⟨h, Iff.rfl⟩
  | cons eid rest ih =>
    intro s i h
    cases hd : dget s.m eid with
    | none =>
      rw [stopRun_cons_none now s eid rest hd]
      exact ih s i h
    | some e =>
      by_cases hend : e.end_time = none
      · cases hst : e.start_time with
        | none =>
          rw [stopRun_cons_nostart now s eid rest e hd hend hst]
          exact ih s i h
        | some v =>
          cases v with
          | invalid =>
            rw [stopRun_cons_invalid now s eid rest e hd hend hst]
            exact ⟨h, Iff.rfl⟩
          | valid t =>
            rw [stopRun_cons_valid now s eid rest e t hd hend hst]
            have hne : i ≠ eid := by
              intro hi
              rw [hi, hd] at h
              cases h
            have h2 : dget (dinsert s.m eid (closeEntry e now t)) i = none := by
              rw [dget_dinsert_ne s.m eid i _ hne]
              exact h
            obtain ⟨ha, hb⟩ :=
              ih ⟨dinsert s.m eid (closeEntry e now t), s.upd ++ [eid]⟩ i h2
            refine ⟨ha, ?_⟩
            rw [hb]
            simp [List.mem_append, hne]
      · rw [stopRun_cons_closed now s eid rest e hd hend]
        exact ih s i h

theorem stopRun_skips (now : Time) :
    ∀ (ids : List String) (s : StopState) (i : String) (e : Entry),
      dget s.m i = some e →
      (e.end_time ≠ none ∨ (e.end_time = none ∧ e.start_time = none)) →
      dget (stopRun now s ids).1.m i = some e
        ∧ ((i ∈ (stopRun now s ids).1.upd) ↔ i ∈ s.upd) := by
  intro ids
  induction ids with
  | nil =>
    intro s i e h _
    exact ⟨h, Iff.rfl⟩
  | cons eid rest ih =>
    intro s i e h hcond
    by_cases hie : eid = i
    · subst hie
      rcases hcond with hclosed | ⟨hopen, hnostart⟩
      · rw [stopRun_cons_closed now s eid rest e h hclosed]
        exact ih s eid e h (Or.inl hclosed)
      · rw [stopRun_cons_nostart now s eid rest e h hopen hnostart]
        exact ih s eid e h (Or.inr ⟨hopen, hnostart⟩)
    · cases hd : dget s.m eid with
      | none =>
        rw [stopRun_cons_none now s eid rest hd]
        exact ih s i e h hcond
      | some e2 =>
        by_cases hend2 : e2.end_time = none
        · cases hst2 : e2.start_time with
          | none =>
            rw [stopRun_cons_nostart now s eid rest e2 hd hend2 hst2]
            exact ih s i e h hcond
          | some v =>
            cases v with
            | invalid =>
              rw [stopRun_cons_invalid now s eid rest e2 hd hend2 hst2]
              exact ⟨h, Iff.rfl⟩
            | valid t =>
              rw [stopRun_cons_valid now s eid rest e2 t hd hend2 hst2]
              have hne : i ≠ eid := fun hi => hie hi.symm
              have h2 : dget (dinsert s.m eid (closeEntry e2 now t)) i = some e := by
                rw [dget_dinsert_ne s.m eid i _ hne]
                exact h
              obtain ⟨ha, hb⟩ :=
                ih ⟨dinsert s.m eid (closeEntry e2 now t), s.upd ++ [eid]⟩ i e h2 hcond
              refine ⟨ha, ?_⟩
              rw [hb]
              simp [List.mem_append, hne]
        · rw [stopRun_cons_closed now s eid rest e2 hd hend2]
          exact ih s i e h hcond

theorem stopRun_closes (now : Time) :
    ∀ (ids : List String) (s : StopState) (i : String) (e : Entry) (t : Time),
      MInv s.m → i ∈ ids → dget s.m i = some e → e.end_time = none →
      e.start_time = some (IsoStr.valid t) →
      dget (stopRun now s ids).1.m i = some (closeEntry e now t)
        ∧ i ∈ (stopRun now s ids).1.upd := by
  intro ids
  induction ids with
  | nil =>
    intro s i e t _ hmem
    cases hmem
  | cons eid rest ih =>
    intro s i e t hm hmem h hopen hstart
    by_cases hie : eid = i
    · subst hie
      rw [stopRun_cons_valid now s eid rest e t h hopen hstart]
      have hclosed : (closeEntry e now t).end_time ≠ none := by
        rw [closeEntry_end]
        exact fun hc => Option.noConfusion hc
      have hd2 : dget (dinsert s.m eid (closeEntry e now t)) eid
          = some (closeEntry e now t) := dget_dinsert_self _ _ _
      obtain ⟨ha, hb⟩ := stopRun_skips now rest
        ⟨dinsert s.m eid (closeEntry e now t), s.upd ++ [eid]⟩ eid
        (closeEntry e now t) hd2 (Or.inl hclosed)
      refine ⟨ha, ?_⟩
      rw [hb]
      simp [List.mem_append]
    · have hmem2 : i ∈ rest := by
        rcases List.mem_cons.mp hmem with h1 | h1
        · exact absurd h1.symm hie
        · exact h1
      cases hd : dget s.m eid with
      | none =>
        rw [stopRun_cons_none now s eid rest hd]
        exact ih s i e t hm hmem2 h hopen hstart
      | some e2 =>
        by_cases hend2 : e2.end_time = none
        · cases hst2 : e2.start_time with
          | none =>
            rw [stopRun_cons_nostart now s eid rest e2 hd hend2 hst2]
            exact ih s i e t hm hmem2 h hopen hstart
          | some v =>
            cases v with
            | invalid => exact absurd hst2 (hm eid e2 hd).2
            | valid t2 =>
              rw [stopRun_cons_valid now s eid rest e2 t2 hd hend2 hst2]
              have hne : i ≠ eid := fun hi => hie hi.symm
              have hm2 : MInv (dinsert s.m eid (closeEntry e2 now t2)) :=
                MInv_dinsert_close s.m eid e2 now t2 hm hd
              have h2 : dget (dinsert s.m eid (closeEntry e2 now t2)) i = some e := by
                rw [dget_dinsert_ne s.m eid i _ hne]
                exact h
              exact ih ⟨dinsert s.m eid (closeEntry e2 now t2), s.upd ++ [eid]⟩
                i e t hm2 hmem2 h2 hopen hstart
        · rw [stopRun_cons_closed now s eid rest e2 hd hend2]
          exact ih s i e t hm hmem2 h hopen hstart

theorem stopRun_no_abort (now : Time) :
    ∀ (ids : List String) (s : StopState), MInv s.m →
      (stopRun now s ids).2 = false ∧ MInv (stopRun now s ids).1.m := by
  intro ids
  induction ids with
  | nil =>
    intro s hm
    exact ⟨rfl, hm⟩
  | cons eid rest ih =>
    intro s hm
    cases hd : dget s.m eid with
    | none =>
      rw [stopRun_cons_none now s eid rest hd]
      exact ih s hm
    | some e =>
      by_cases hend : e.end_time = none
      · cases hst : e.start_time with
        | none =>
          rw [stopRun_cons_nostart now s eid rest e hd hend hst]
          exact ih s hm
        | some v =>
          cases v with
          | invalid => exact absurd hst (hm eid e hd).2
          | valid t =>
            rw [stopRun_cons_valid now s eid rest e t hd hend hst]
            exact ih ⟨dinsert s.m eid (closeEntry e now t), s.upd ++ [eid]⟩
              (MInv_dinsert_close s.m eid e now t hm hd)
      · rw [stopRun_cons_closed now s eid rest e hd hend]
        exact ih s hm

theorem stopRun_upd_from (now : Time) :
    ∀ (ids : List String) (s : StopState) (i : String),
      i ∈ (stopRun now s ids).1.upd → i ∈ s.upd ∨ i ∈ ids := by
  intro ids
  induction ids with
  | nil =>
    intro s i h
    exact Or.inl h
  | cons eid rest ih =>
    intro s i h
    cases hd : dget s.m eid with
    | none =>
      rw [stopRun_cons_none now s eid rest hd] at h
      rcases ih s i h with h1 | h1
      · exact Or.inl h1
      · exact Or.inr (List.mem_cons_of_mem eid h1)
    | some e =>
      by_cases hend : e.end_time = none
      · cases hst : e.start_time with
        | none =>
          rw [stopRun_cons_nostart now s eid rest e hd hend hst] at h
          rcases ih s i h with h1 | h1
          · exact Or.inl h1
          · exact Or.inr (List.mem_cons_of_mem eid h1)
        | some v =>
          cases v with
          | invalid =>
            rw [stopRun_cons_invalid now s eid rest e hd hend hst] at h
            exact Or.inl h
          | valid t =>
            rw [stopRun_cons_valid now s eid rest e t hd hend hst] at h
            rcases ih ⟨dinsert s.m eid (closeEntry e now t), s.upd ++ [eid]⟩ i h
              with h1 | h1
            · rcases List.mem_append.mp h1 with h2 | h2
              · exact Or.inl h2
              · rw [List.mem_singleton] at h2
                exact Or.inr (h2 ▸ List.mem_cons_self eid rest)
            · exact Or.inr (List.mem_cons_of_mem eid h1)
      · rw [stopRun_cons_closed now s eid rest e hd hend] at h
        rcases ih s i h with h1 | h1
        · exact Or.inl h1
        · exact Or.inr (List.mem_cons_of_mem eid h1)

theorem dget_buildFold_cases :
    ∀ (log : List Entry) (m : List (String × Entry)) (i : String) (e : Entry),
      dget (log.foldl (fun m e =>
        match e.id with
        | some i => dinsert m i e
        | none => m) m) i = some e →
      dget m i = some e ∨ (e ∈ log ∧ e.id = some i) := by
  intro log
  induction log with
  | nil =>
    intro m i e h
    exact Or.inl h
  | cons e2 rest ih =>
    intro m i e h
    rw [List.foldl_cons] at h
    rcases ih _ i e h with h1 | h1
    · cases hid : e2.id with
      | none =>
        rw [hid] at h1
        exact Or.inl h1
      | some j =>
        rw [hid] at h1
        by_cases hj : j = i
        · subst hj
          rw [dget_dinsert_self] at h1
          obtain rfl : e2 = e := Option.some.inj h1
          exact Or.inr ⟨List.mem_cons_self e2 rest, hid⟩
        · rw [dget_dinsert_ne m j i e2 (fun hc => hj hc.symm)] at h1
          exact Or.inl h1
    · exact Or.inr ⟨List.mem_cons_of_mem e2 h1.1, h1.2⟩

theorem MInv_buildLogMap (log : List Entry)
    (hval : ∀ e ∈ log, e.start_time ≠ some IsoStr.invalid) :
    MInv (buildLogMap log) := by
  intro i e h
  rcases dget_buildFold_cases log [] i e h with h1 | h1
  · cases h1
  · exact ⟨h1.2, hval e h1.1⟩

theorem dget_buildLogMap_eq_lookup (log : List Entry)
    (hnd : (log.filterMap Entry.id).Nodup) (i : String) :
    dget (buildLogMap log) i = lookupById log i := by
  rw [buildLogMap_eq log hnd, dget_idPairs]

end StopRunLemmas

section CoreStopLemmas

theorem substClosed_id (m2 : List (String × Entry)) (upd : List String)
    (hminv : MInv m2) (e : Entry) :
    (substClosed m2 upd e).id = e.id := by
  cases he : e.id with
  | none => simp [substClosed, he]
  | some i =>
    by_cases hm : i ∈ upd
    · cases hg : dget m2 i with
      | none => simp [substClosed, he, hm, hg]
      | some e2 => simp [substClosed, he, hm, hg, (hminv i e2 hg).1]
    · simp [substClosed, he, hm]

theorem lookupById_map_subst (m2 : List (String × Entry)) (upd : List String)
    (hminv : MInv m2) (log : List Entry) (i : String) :
    lookupById (log.map (substClosed m2 upd)) i
      = (lookupById log i).map (substClosed m2 upd) := by
  induction log with
  | nil => rfl
  | cons e rest ih =>
    rw [List.map_cons, lookupById_cons, lookupById_cons,
      substClosed_id m2 upd hminv e]
    by_cases he : e.id = some i
    · rw [if_pos he, if_pos he]
      rfl
    · rw [if_neg he, if_neg he]
      exact ih

theorem lookupById_id (log : List Entry) (i : String) (e : Entry)
    (h : lookupById log i = some e) : e.id = some i := by
  have := List.find?_some h
  exact of_decide_eq_true this

theorem lookupById_mem (log : List Entry) (i : String) (e : Entry)
    (h : lookupById log i = some e) : e ∈ log :=
  List.mem_of_find?_eq_some h

theorem lookupById_eq_none (log : List Entry) (i : String)
    (h : ∀ e ∈ log, e.id ≠ some i) : lookupById log i = none := by
  apply List.find?_eq_none.mpr
  intro e he
  simp only [decide_eq_true_eq]
  exact h e he

theorem core_stop_eq (now : Time) (log : List Entry) (ids : List String)
    (hval : ∀ e ∈ log, e.start_time ≠ some IsoStr.invalid) :
    core_log_downtime_stop now log ids
      = (log.map (substClosed (stopRun now ⟨buildLogMap log, []⟩ ids).1.m
            (stopRun now ⟨buildLogMap log, []⟩ ids).1.upd),
         (stopRun now ⟨buildLogMap log, []⟩ ids).1.upd) := by
  have hab := (stopRun_no_abort now ids ⟨buildLogMap log, []⟩
    (MInv_buildLogMap log hval)).1
  simp only [core_log_downtime_stop, hab]
  rfl

theorem core_stop_snd (now : Time) (log : List Entry) (ids : List String) :
    (core_log_downtime_stop now log ids).2
      = (stopRun now ⟨buildLogMap log, []⟩ ids).1.upd := by
  simp only [core_log_downtime_stop]
  by_cases hb : (stopRun now ⟨buildLogMap log, []⟩ ids).2
  · simp [hb]
  · simp [hb]

end CoreStopLemmas

section IndexLemmas

theorem nodup_start_fold (date_str : String) :
    ∀ (l : List (String × String)) (st : Index), (dkeys st).Nodup →
      (dkeys (l.foldl
        (fun acc p => dinsert acc p.1 ⟨p.2, date_str⟩) st)).Nodup := by
  intro l
  induction l with
  | nil =>
    intro st h
    exact h
  | cons p rest ih =>
    intro st h
    rw [List.foldl_cons]
    exact ih _ (nodup_dkeys_dinsert st p.1 _ h)

theorem nodup_stop_fold :
    ∀ (ops : List String) (st : Index), (dkeys st).Nodup →
      (dkeys (ops.foldl (fun acc op => dpop acc op) st)).Nodup := by
  intro ops
  induction ops with
  | nil =>
    intro st h
    exact h
  | cons o rest ih =>
    intro st h
    rw [List.foldl_cons]
    exact ih _ (nodup_dkeys_dpop st o h)

theorem nodup_load_fold (date_str : String) :
    ∀ (log : List Entry) (acc : Index), (dkeys acc).Nodup →
      (dkeys (log.foldl (loadStep date_str) acc)).Nodup := by
  intro log
  induction log with
  | nil =>
    intro acc h
    exact h
  | cons e rest ih =>
    intro acc h
    rw [List.foldl_cons]
    refine ih _ ?_
    rw [loadStep_eq_kvFoldStep]
    unfold kvFoldStep
    cases hf : openEntryPair date_str e with
    | none => exact h
    | some p => exact nodup_dkeys_dinsert acc p.1 p.2 h

theorem nodup_appStep (st : Index) (op : AppOp) (h : (dkeys st).Nodup) :
    (dkeys (appStep st op)).Nodup := by
  cases op with
  | start d ops ids => exact nodup_start_fold d (ops.zip ids) st h
  | stop ops => exact nodup_stop_fold ops st h
  | restore d log => exact nodup_load_fold d log [] List.nodup_nil

theorem nodup_runOps_aux :
    ∀ (ops : List AppOp) (st : Index), (dkeys st).Nodup →
      (dkeys (ops.foldl appStep st)).Nodup := by
  intro ops
  induction ops with
  | nil =>
    intro st h
    exact h
  | cons o rest ih =>
    intro st h
    rw [List.foldl_cons]
    exact ih _ (nodup_appStep st o h)

end IndexLemmas

section LoadLemmas

theorem openEntryPair_closed (date_str : String) (e : Entry)
    (h : ¬ e.end_time = none) : openEntryPair date_str e = none := by
  unfold openEntryPair
  rw [if_neg h]

theorem openEntryPair_wf (date_str : String) (e : Entry) (op i : String)
    (hend : e.end_time = none) (ho : e.operator = some op) (hop : op ≠ "")
    (hi : e.id = some i) (hii : i ≠ "") :
    openEntryPair date_str e = some (op, ⟨i, date_str⟩) := by
  simp [openEntryPair, hend, ho, hi, hop, hii]

theorem openKey_eq_some (e : Entry) (op : String) (h : openKey e = some op) :
    e.end_time = none ∧ e.operator = some op := by
  unfold openKey at h
  by_cases hend : e.end_time = none
  · rw [if_pos hend] at h
    cases ho : e.operator with
    | none => simp [ho] at h
    | some op2 =>
      cases hi : e.id with
      | none => simp [ho, hi] at h
      | some i =>
        simp only [ho, hi] at h
        by_cases ht : op2 ≠ "" ∧ i ≠ ""
        · rw [if_pos ht] at h
          obtain rfl : op2 = op := Option.some.inj h
          exact ⟨hend, rfl⟩
        · rw [if_neg ht] at h
          cases h
  · rw [if_neg hend] at h
    cases h

theorem openKey_wf (e : Entry) (op i : String) (hend : e.end_time = none)
    (ho : e.operator = some op) (hop : op ≠ "") (hi : e.id = some i)
    (hii : i ≠ "") : openKey e = some op := by
  simp [openKey, hend, ho, hi, hop, hii]

theorem dkeys_filterMap_pair (date_str : String) (log : List Entry) :
    dkeys (log.filterMap (openEntryPair date_str)) = log.filterMap openKey := by
  unfold dkeys
  rw [List.map_filterMap]
  have hfun : (fun e => (openEntryPair date_str e).map Prod.fst) = openKey :=
    funext (openKey_eq_pair_fst date_str)
  rw [hfun]

theorem length_filterMap_open (date_str : String) :
    ∀ (log : List Entry),
      (∀ e ∈ log, e.end_time = none →
        e.operator ≠ none ∧ e.operator ≠ some "" ∧ e.id ≠ none ∧ e.id ≠ some "") →
      (log.filterMap (openEntryPair date_str)).length
        = (log.filter (fun e => decide (e.end_time = none))).length := by
  intro log
  induction log with
  | nil =>
    intro _
    rfl
  | cons e rest ih =>
    intro h
    have hrest : ∀ e2 ∈ rest, e2.end_time = none →
        e2.operator ≠ none ∧ e2.operator ≠ some "" ∧ e2.id ≠ none ∧ e2.id ≠ some "" :=
      fun e2 he2 => h e2 (List.mem_cons_of_mem e he2)
    by_cases hend : e.end_time = none
    · obtain ⟨h1, h2, h3, h4⟩ := h e (List.mem_cons_self e rest) hend
      obtain ⟨op, ho⟩ : ∃ op, e.operator = some op := by
        cases hoc : e.operator with
        | none => exact absurd hoc h1
        | some op => exact ⟨op, rfl⟩
      obtain ⟨i, hi⟩ : ∃ i, e.id = some i := by
        cases hic : e.id with
        | none => exact absurd hic h3
        | some i => exact ⟨i, rfl⟩
      have hop : op ≠ "" := fun hc => h2 (by rw [ho, hc])
      have hii : i ≠ "" := fun hc => h4 (by rw [hi, hc])
      have hfm : List.filterMap (openEntryPair date_str) (e :: rest)
          = (op, ⟨i, date_str⟩) :: List.filterMap (openEntryPair date_str) rest := by
        simp [List.filterMap_cons,
          openEntryPair_wf date_str e op i hend ho hop hi hii]
      have hfl : List.filter (fun x => decide (x.end_time = none)) (e :: rest)
          = e :: List.filter (fun x => decide (x.end_time = none)) rest := by
        simp [List.filter_cons, hend]
      rw [hfm, hfl, List.length_cons, List.length_cons, ih hrest]
    · have hfm : List.filterMap (openEntryPair date_str) (e :: rest)
          = List.filterMap (openEntryPair date_str) rest := by
        simp [List.filterMap_cons, openEntryPair_closed date_str e hend]
      have hfl : List.filter (fun x => decide (x.end_time = none)) (e :: rest)
          = List.filter (fun x => decide (x.end_time = none)) rest := by
        simp [List.filter_cons, hend]
      rw [hfm, hfl, ih hrest]

end LoadLemmas

section StartLemmas

theorem start_downtime_nil_ids (date_str : String) (ops : List String)
    (st : Index) : start_downtime date_str ops [] st = st := by
  cases ops with
  | nil => rfl
  | cons o os => rfl

theorem start_downtime_cons (date_str o i : String) (os is : List String)
    (st : Index) :
    start_downtime date_str (o :: os) (i :: is) st
      = start_downtime date_str os is (dinsert st o ⟨i, date_str⟩) := rfl

theorem start_frame (date_str : String) :
    ∀ (ops ids : List String) (st : Index) (op : String),
      op ∉ ops.take ids.length →
      dget (start_downtime date_str ops ids st) op = dget st op := by
  intro ops
  induction ops with
  | nil =>
    intro ids st op _
    rfl
  | cons o os ih =>
    intro ids st op h
    cases ids with
    | nil => rw [start_downtime_nil_ids]
    | cons i is =>
      rw [start_downtime_cons]
      rw [List.length_cons, List.take_succ_cons, List.mem_cons] at h
      push_neg at h
      rw [ih is _ op h.2, dget_dinsert_ne st o op _ h.1]

theorem start_isSome_mono (date_str : String) :
    ∀ (ops ids : List String) (st : Index) (op : String),
      (dget st op).isSome →
      (dget (start_downtime date_str ops ids st) op).isSome := by
  intro ops
  induction ops with
  | nil =>
    intro ids st op h
    exact h
  | cons o os ih =>
    intro ids st op h
    cases ids with
    | nil =>
      rw [start_downtime_nil_ids]
      exact h
    | cons i is =>
      rw [start_downtime_cons]
      refine ih is _ op ?_
      by_cases ho : op = o
      · subst ho
        rw [dget_dinsert_self]
        rfl
      · rw [dget_dinsert_ne st o op _ ho]
        exact h

theorem start_marks (date_str : String) :
    ∀ (ops ids : List String) (st : Index) (op : String),
      op ∈ ops.take ids.length →
      (dget (start_downtime date_str ops ids st) op).isSome := by
  intro ops
  induction ops with
  | nil =>
    intro ids st op h
    rw [List.take_nil] at h
    cases h
  | cons o os ih =>
    intro ids st op h
    cases ids with
    | nil =>
      rw [List.length_nil, List.take_zero] at h
      cases h
    | cons i is =>
      rw [List.length_cons, List.take_succ_cons, List.mem_cons] at h
      rw [start_downtime_cons]
      rcases h with h | h
      · subst h
        refine start_isSome_mono date_str os is _ op ?_
        rw [dget_dinsert_self]
        rfl
      · exact ih is _ op h

theorem start_positional (date_str : String) :
    ∀ (ops ids : List String) (st : Index), ops.Nodup →
      ∀ (k : Nat) (hk : k < ops.length) (hk2 : k < ids.length),
        dget (start_downtime date_str ops ids st) (ops.get ⟨k, hk⟩)
          = some ⟨ids.get ⟨k, hk2⟩, date_str⟩ := by
  intro ops
  induction ops with
  | nil =>
    intro ids st _ k hk
    exact absurd hk (Nat.not_lt_zero k)
  | cons o os ih =>
    intro ids st hnd k hk hk2
    cases ids with
    | nil => exact absurd hk2 (Nat.not_lt_zero k)
    | cons i is =>
      rw [start_downtime_cons]
      cases k with
      | zero =>
        show dget (start_downtime date_str os is
          (dinsert st o ⟨i, date_str⟩)) o = some ⟨i, date_str⟩
        have ho : o ∉ os.take is.length :=
          fun hmem => (List.nodup_cons.mp hnd).1 (List.take_subset _ _ hmem)
        rw [start_frame date_str os is _ o ho, dget_dinsert_self]
      | succ k2 =>
        show dget (start_downtime date_str os is (dinsert st o ⟨i, date_str⟩))
            (os.get ⟨k2, Nat.lt_of_succ_lt_succ hk⟩)
          = some ⟨is.get ⟨k2, Nat.lt_of_succ_lt_succ hk2⟩, date_str⟩
        exact ih is _ (List.nodup_cons.mp hnd).2 k2
          (Nat.lt_of_succ_lt_succ hk) (Nat.lt_of_succ_lt_succ hk2)

end StartLemmas

section MapMoveLemmas

theorem applyMapOps_lastCleared :
    ∀ (ops : List MapOp) (s : MapState),
      (applyMapOps s ops).lastCleared = s.lastCleared := by
  intro ops
  induction ops with
  | nil =>
    intro s
    rfl
  | cons o rest ih =>
    intro s
    cases o with
    | set op st => exact ih (osm_set s op st)
    | remove op => exact ih (osm_remove s op)

theorem lastStateOf_append_self (db : List MoveEvent)
    (operator station state : String) (now : Time) :
    lastStateOf (db ++ [⟨operator, station, now, state⟩]) operator
      = some state := by
  unfold lastStateOf
  rw [List.filter_append]
  have hone : List.filter (fun e => decide (e.operator = operator))
      [(⟨operator, station, now, state⟩ : MoveEvent)]
      = [⟨operator, station, now, state⟩] := by
    simp
  rw [hone, List.getLast?_concat]
  rfl

end MapMoveLemmas

/-! ## Claim theorems -/

/-- C1: for every sequence of start/stop/restore commands run against
the Downtime State Machine from its initial empty state, the
active-downtime index `active_downtimes` never holds two entries for
the same operator (its key list is duplicate-free), and
`can_start_downtime` returns exactly the subset of the given operators
that already have an entry. -/
theorem C1_no_double_open :
    (∀ ops : List AppOp, (dkeys (runOps ops)).Nodup)
    ∧ (∀ (st : Index) (operators : List String) (op : String),
        op ∈ can_start_downtime st operators
          ↔ op ∈ operators ∧ op ∈ dkeys st) := by
  constructor
  · intro ops
    exact nodup_runOps_aux ops [] List.nodup_nil
  · intro st operators op
    unfold can_start_downtime
    rw [List.mem_filter]
    simp only [decide_eq_true_eq]

/-- Witness for C1 at concrete inputs. -/
theorem C1_no_double_open_witness :
    (dkeys (runOps [AppOp.start "2024-01-02" ["Alice", "Bob"] ["e1", "e2"],
      AppOp.stop ["Alice"]])).Nodup
    ∧ ("Bob" ∈ can_start_downtime [("Bob", ⟨"e2", "2024-01-02"⟩)]
          ["Alice", "Bob"]
        ↔ "Bob" ∈ ["Alice", "Bob"]
          ∧ "Bob" ∈ dkeys [("Bob", (⟨"e2", "2024-01-02"⟩ : DowntimeInfo))]) :=
  ⟨C1_no_double_open.1 _, C1_no_double_open.2 _ _ _⟩

/-- C2: over a day log whose open entries carry truthy `operator` and
`id` fields and pairwise distinct operators, one call to the core
`load_active_downtimes_from_log` — from any prior index state — yields
an index with exactly one entry per open event (N entries for N open
events), keyed by exactly the operators with an open event; the result
does not depend on the prior index (the method clears it first), so
calling it any number of times reconciles to that same index. -/
theorem C2_restart_idempotent (date_str : String) (log : List Entry)
    (h1 : ∀ e ∈ log, e.end_time = none →
      e.operator ≠ none ∧ e.operator ≠ some "" ∧ e.id ≠ none ∧ e.id ≠ some "")
    (h2 : (log.filterMap openKey).Nodup) :
    ∀ st : Index,
      (load_active_downtimes_from_log date_str log st).length
        = (log.filter (fun e => decide (e.end_time = none))).length
      ∧ (∀ op, op ∈ dkeys (load_active_downtimes_from_log date_str log st)
          ↔ ∃ e ∈ log, e.end_time = none ∧ e.operator = some op)
      ∧ load_active_downtimes_from_log date_str log st
          = load_active_downtimes_from_log date_str log [] := by
  intro st
  have heq := load_active_eq date_str log st h2
  have heq0 := load_active_eq date_str log [] h2
  refine ⟨?_, ?_, by rw [heq, heq0]⟩
  · rw [heq]
    exact length_filterMap_open date_str log h1
  · intro op
    rw [heq, ← dkeys_filterMap_pair date_str log] at *
    rw [dkeys_filterMap_pair date_str log, List.mem_filterMap]
    constructor
    · rintro ⟨e, he, hkey⟩
      obtain ⟨hend, ho⟩ := openKey_eq_some e op hkey
      exact ⟨e, he, hend, ho⟩
    · rintro ⟨e, he, hend, ho⟩
      obtain ⟨hop1, hop2, hid1, hid2⟩ := h1 e he hend
      obtain ⟨i, hi⟩ : ∃ i, e.id = some i := by
        cases hic : e.id with
        | none => exact absurd hic hid1
        | some i => exact ⟨i, rfl⟩
      have hop : op ≠ "" := fun hc => hop2 (by rw [ho, hc])
      have hii : i ≠ "" := fun hc => hid2 (by rw [hi, hc])
      exact ⟨e, he, openKey_wf e op i hend ho hop hi hii⟩

/-- Witness for C2 on a two-entry day log (one open, one closed) and a
non-empty prior index. -/
theorem C2_restart_idempotent_witness :
    (load_active_downtimes_from_log "2024-01-02" [c2Open, c2Closed]
        [("Zed", ⟨"z", "2024-01-01"⟩)]).length
      = ([c2Open, c2Closed].filter (fun e => decide (e.end_time = none))).length
    ∧ load_active_downtimes_from_log "2024-01-02" [c2Open, c2Closed]
        [("Zed", ⟨"z", "2024-01-01"⟩)]
      = load_active_downtimes_from_log "2024-01-02" [c2Open, c2Closed] [] := by
  have h := C2_restart_idempotent "2024-01-02" [c2Open, c2Closed]
    (by decide) (by decide) [("Zed", ⟨"z", "2024-01-01"⟩)]
  exact ⟨h.1, h.2.2⟩

/-- C3: evaluation of the core `AppState.stop_downtime` at a failing
input.  With one active operator, the collected id list is non-empty,
so the method calls `self.logger.log_downtime_stop(downtime_ids)` —
omitting the `date_str` the core `DowntimeLogger.log_downtime_stop`
requires — and Python raises `TypeError` before any index entry is
popped: no grouping by day partition happens, no per-partition store
call is issued, and the exception escapes to the caller. -/
theorem C3_core_stop_downtime_raises :
    core_stop_downtime [("Alice", ⟨"e1", "2024-01-01"⟩)] ["Alice"]
      = Except.error PyErr.typeError := rfl

/-- C4 counterexample: over the day log `[c4Entry]` whose single entry
is open (`end_time` is `None`) with id `"a"` but has no `start_time`,
calling stop with `["a"]` returns an empty updated-id list and leaves
the log unchanged — the claim says an id whose event is open gets
closed and returned. -/
theorem C4_counterexample :
    c4Entry.end_time = none
    ∧ c4Entry.id = some "a"
    ∧ (core_log_downtime_stop 200 [c4Entry] ["a"]).2 = []
    ∧ (core_log_downtime_stop 200 [c4Entry] ["a"]).1 = [c4Entry] :=
  ⟨rfl, rfl, rfl, rfl⟩

/-- C4 (amended): for a call to the core `log_downtime_stop` over a day
log with distinct ids and no malformed `start_time` string: an id whose
entry is open and has a `start_time` gets `end_time = now`, a computed
`duration_minutes`, and is returned; an id whose entry is already
closed, or that matches no entry, or whose open entry lacks a
`start_time`, is silently skipped — not in the returned list, its entry
unchanged — and no error is raised. -/
theorem C4_stop_skip_semantics (now : Time) (log : List Entry)
    (ids : List String) (i : String)
    (hnd : (log.filterMap Entry.id).Nodup)
    (hval : ∀ e ∈ log, e.start_time ≠ some IsoStr.invalid) :
    ((∀ e ∈ log, e.id ≠ some i) →
      i ∉ (core_log_downtime_stop now log ids).2
        ∧ lookupById (core_log_downtime_stop now log ids).1 i = none)
    ∧ (∀ e, lookupById log i = some e → e.end_time ≠ none →
        i ∉ (core_log_downtime_stop now log ids).2
          ∧ lookupById (core_log_downtime_stop now log ids).1 i = some e)
    ∧ (∀ e, lookupById log i = some e → e.end_time = none →
        e.start_time = none →
        i ∉ (core_log_downtime_stop now log ids).2
          ∧ lookupById (core_log_downtime_stop now log ids).1 i = some e)
    ∧ (∀ e t, lookupById log i = some e → e.end_time = none →
        e.start_time = some (IsoStr.valid t) → i ∈ ids →
        i ∈ (core_log_downtime_stop now log ids).2
          ∧ lookupById (core_log_downtime_stop now log ids).1 i
              = some (closeEntry e now t)) := by
  have hminv0 : MInv (buildLogMap log) := MInv_buildLogMap log hval
  have hminv2 : MInv (stopRun now ⟨buildLogMap log, []⟩ ids).1.m :=
    (stopRun_no_abort now ids ⟨buildLogMap log, []⟩ hminv0).2
  have hbridge : ∀ j, dget (buildLogMap log) j = lookupById log j :=
    dget_buildLogMap_eq_lookup log hnd
  have hstop := core_stop_eq now log ids hval
  have hsnd : (core_log_downtime_stop now log ids).2
      = (stopRun now ⟨buildLogMap log, []⟩ ids).1.upd := core_stop_snd now log ids
  have hlook : ∀ j, lookupById (core_log_downtime_stop now log ids).1 j
      = (lookupById log j).map
          (substClosed (stopRun now ⟨buildLogMap log, []⟩ ids).1.m
            (stopRun now ⟨buildLogMap log, []⟩ ids).1.upd) := by
    intro j
    rw [hstop]
    exact lookupById_map_subst _ _ hminv2 log j
  refine ⟨?_, ?_, ?_, ?_⟩
  · intro hno
    have hlk : lookupById log i = none := lookupById_eq_none log i hno
    have hdg : dget (buildLogMap log) i = none := by rw [hbridge i, hlk]
    obtain ⟨_, h2⟩ := stopRun_untouched now ids ⟨buildLogMap log, []⟩ i hdg
    constructor
    · rw [hsnd]
      intro hmem
      exact absurd (h2.mp hmem) (List.not_mem_nil i)
    · rw [hlook i, hlk]
      rfl
  · intro e hlk hclosed
    have hdg : dget (buildLogMap log) i = some e := by rw [hbridge i, hlk]
    obtain ⟨_, h2⟩ :=
      stopRun_skips now ids ⟨buildLogMap log, []⟩ i e hdg (Or.inl hclosed)
    have hni : i ∉ (stopRun now ⟨buildLogMap log, []⟩ ids).1.upd := by
      intro hmem
      exact absurd (h2.mp hmem) (List.not_mem_nil i)
    refine ⟨by rw [hsnd]; exact hni, ?_⟩
    rw [hlook i, hlk]
    have hid := lookupById_id log i e hlk
    simp [substClosed, hid, hni]
  · intro e hlk hopen hnostart
    have hdg : dget (buildLogMap log) i = some e := by rw [hbridge i, hlk]
    obtain ⟨_, h2⟩ := stopRun_skips now ids ⟨buildLogMap log, []⟩ i e hdg
      (Or.inr ⟨hopen, hnostart⟩)
    have hni : i ∉ (stopRun now ⟨buildLogMap log, []⟩ ids).1.upd := by
      intro hmem
      exact absurd (h2.mp hmem) (List.not_mem_nil i)
    refine ⟨by rw [hsnd]; exact hni, ?_⟩
    rw [hlook i, hlk]
    have hid := lookupById_id log i e hlk
    simp [substClosed, hid, hni]
  · intro e t hlk hopen hstart hmem
    have hdg : dget (buildLogMap log) i = some e := by rw [hbridge i, hlk]
    obtain ⟨h1, h2⟩ := stopRun_closes now ids ⟨buildLogMap log, []⟩ i e t
      hminv0 hmem hdg hopen hstart
    refine ⟨by rw [hsnd]; exact h2, ?_⟩
    rw [hlook i, hlk]
    have hid := lookupById_id log i e hlk
    simp [substClosed, hid, h2, h1]

/-- Witness for C4 on a two-entry log (one closed, one open), with an
unknown id in the list: the closed entry's id is skipped and its entry
unchanged, the open one is closed and returned. -/
theorem C4_stop_skip_semantics_witness :
    ("c" ∉ (core_log_downtime_stop 200 [c4Closed, c4Open] ["b", "c", "zzz"]).2
      ∧ lookupById
          (core_log_downtime_stop 200 [c4Closed, c4Open] ["b", "c", "zzz"]).1 "c"
        = some c4Closed)
    ∧ ("b" ∈ (core_log_downtime_stop 200 [c4Closed, c4Open] ["b", "c", "zzz"]).2
      ∧ lookupById
          (core_log_downtime_stop 200 [c4Closed, c4Open] ["b", "c", "zzz"]).1 "b"
        = some (closeEntry c4Open 200 100)) := by
  have hc := C4_stop_skip_semantics 200 [c4Closed, c4Open] ["b", "c", "zzz"] "c"
    (by decide) (by decide)
  have hb := C4_stop_skip_semantics 200 [c4Closed, c4Open] ["b", "c", "zzz"] "b"
    (by decide) (by decide)
  exact ⟨hc.2.1 c4Closed (by decide) (by decide),
    hb.2.2.2 c4Open 100 (by decide) (by decide) (by decide) (by decide)⟩

/-- C5: evaluation of the core `get_daily_log` at the failing input: a
day log holding one entry with a missing `start_time` next to one
well-formed entry.  The corrupt entry is not skipped — its `None`
timestamp is passed through, and the final
`processed.sort(key=lambda e: e["timestamp"])` raises `TypeError`
(`None` is not orderable against a datetime), aborting the whole
listing instead of returning the well-formed entries. -/
theorem C5_corrupt_entry_aborts_listing :
    core_get_daily_log [c5Corrupt, c5Good]
      = Except.error PyErr.typeError := rfl

/-- C6 (amended): for the core Event Log Store
(src/core/downtime_logger.py), every persistence failure — unreadable
or malformed local file, unreachable server or non-list payload, failed
write — is caught inside the store: `load_log` always returns a list,
`save_log` always returns (leaving the previous disk state on
failure), `log_downtime_start` always returns one generated id per
operator, and `log_downtime_stop` returns a subset of the requested
ids; no exception propagates.  (The simplified dev variant does
propagate read failures: see the counterexample.) -/
theorem C6_core_store_never_raises (srv : ServerRead) (disk : DiskRead)
    (server : Bool) (log_entries : List Entry) (mode : SaveMode)
    (writeFails : Bool) (gen : Nat → String)
    (events : String → Option String) (now : Time)
    (station downtime : String) (operators : List String)
    (log : List Entry) (ids : List String) :
    (∃ l, core_load_log srv disk = Except.ok l)
    ∧ (∃ d, core_save_log server log_entries mode disk writeFails
        = Except.ok d)
    ∧ (∃ p, core_log_downtime_start gen events now station downtime
          operators server disk writeFails = Except.ok p
        ∧ p.2.length = operators.length)
    ∧ (∀ j ∈ (core_log_downtime_stop now log ids).2, j ∈ ids) := by
  refine ⟨?_, ?_, ?_, ?_⟩
  · cases srv with
    | okList l => exact ⟨l, rfl⟩
    | noServer => exact ⟨local_load_log disk, rfl⟩
    | badFormat => exact ⟨local_load_log disk, rfl⟩
    | failed => exact ⟨local_load_log disk, rfl⟩
  · unfold core_save_log
    by_cases h1 : log_entries = []
    · rw [if_pos h1]
      exact ⟨disk, rfl⟩
    · rw [if_neg h1]
      by_cases h2 : server = true
      · rw [if_pos h2]
        exact ⟨disk, rfl⟩
      · rw [if_neg h2]
        by_cases h3 : writeFails = true
        · exact ⟨disk, by rw [if_pos h3]⟩
        · exact ⟨_, by rw [if_neg h3]⟩
  · unfold core_log_downtime_start
    refine ⟨_, rfl, ?_⟩
    simp
  · intro j hj
    rw [core_stop_snd now log ids] at hj
    rcases stopRun_upd_from now ids ⟨buildLogMap log, []⟩ j hj with h | h
    · cases h
    · exact h

/-- C6 counterexample: the dev variant's `load_log`
(src/dev/logger.py:24-29) has no `try` around `path.open`/`json.load`,
so on an unreadable or malformed day file the exception propagates out
of the store — contradicting the claim that no Event Log Store
operation lets a persistence failure escape. -/
theorem C6_dev_load_log_raises :
    dev_load_log DiskRead.bad = Except.error PyErr.ioError := rfl

/-- Witness for C6 at concrete arguments. -/
theorem C6_core_store_never_raises_witness :
    (∃ l, core_load_log ServerRead.failed DiskRead.bad = Except.ok l)
    ∧ (∀ j ∈ (core_log_downtime_stop 0 [] ["q"]).2, j ∈ ["q"]) := by
  have h := C6_core_store_never_raises ServerRead.failed DiskRead.bad true []
    SaveMode.append true (fun _ => "u") (fun _ => none) 0 "S" "R" [] [] ["q"]
  exact ⟨h.1, h.2.2.2⟩

/-- C7: every id the core stop operation reports as closed had an open
entry with a parseable `start_time` t in the input log, and its stored
entry afterwards carries `end_time = now` and
`duration_minutes = round((now - t) / 60, 2)` — the elapsed time in
minutes rounded to 2 decimals; and every event created by
`log_downtime_start` starts with both `end_time` and
`duration_minutes` equal to `None`. -/
theorem C7_duration_arithmetic (now : Time) (log : List Entry)
    (ids : List String)
    (hnd : (log.filterMap Entry.id).Nodup)
    (hval : ∀ e ∈ log, e.start_time ≠ some IsoStr.invalid) :
    (∀ i ∈ (core_log_downtime_stop now log ids).2,
      ∃ e t, lookupById log i = some e ∧ e.end_time = none
        ∧ e.start_time = some (IsoStr.valid t)
        ∧ lookupById (core_log_downtime_stop now log ids).1 i
            = some { e with
                end_time := some now
                duration_minutes := some (round2 ((now - t) / 60)) })
    ∧ (∀ entry_id station operator downtime category : String, ∀ t : Time,
        (mkStartEntry entry_id station operator downtime category t).end_time
            = none
        ∧ (mkStartEntry entry_id station operator downtime
            category t).duration_minutes = none) := by
  constructor
  · intro i hi
    have hminv0 : MInv (buildLogMap log) := MInv_buildLogMap log hval
    have hminv2 : MInv (stopRun now ⟨buildLogMap log, []⟩ ids).1.m :=
      (stopRun_no_abort now ids ⟨buildLogMap log, []⟩ hminv0).2
    rw [core_stop_snd now log ids] at hi
    have hiid : i ∈ ids := by
      rcases stopRun_upd_from now ids ⟨buildLogMap log, []⟩ i hi with h | h
      · cases h
      · exact h
    cases hdg : dget (buildLogMap log) i with
    | none =>
      obtain ⟨_, h2⟩ := stopRun_untouched now ids ⟨buildLogMap log, []⟩ i hdg
      exact absurd (h2.mp hi) (List.not_mem_nil i)
    | some e =>
      cases hend : e.end_time with
      | some t0 =>
        obtain ⟨_, h2⟩ := stopRun_skips now ids ⟨buildLogMap log, []⟩ i e hdg
          (Or.inl (by rw [hend]; exact fun hc => Option.noConfusion hc))
        exact absurd (h2.mp hi) (List.not_mem_nil i)
      | none =>
        cases hst : e.start_time with
        | none =>
          obtain ⟨_, h2⟩ := stopRun_skips now ids ⟨buildLogMap log, []⟩ i e hdg
            (Or.inr ⟨hend, hst⟩)
          exact absurd (h2.mp hi) (List.not_mem_nil i)
        | some v =>
          cases v with
          | invalid => exact absurd hst (hminv0 i e hdg).2
          | valid t =>
            obtain ⟨h1, _⟩ := stopRun_closes now ids ⟨buildLogMap log, []⟩
              i e t hminv0 hiid hdg hend hst
            have hlk : lookupById log i = some e := by
              rw [← dget_buildLogMap_eq_lookup log hnd i]
              exact hdg
            refine ⟨e, t, hlk, hend, hst, ?_⟩
            have hstop := core_stop_eq now log ids hval
            have hlkr : lookupById (core_log_downtime_stop now log ids).1 i
                = (lookupById log i).map
                    (substClosed (stopRun now ⟨buildLogMap log, []⟩ ids).1.m
                      (stopRun now ⟨buildLogMap log, []⟩ ids).1.upd) := by
              rw [hstop]
              exact lookupById_map_subst _ _ hminv2 log i
            rw [hlkr, hlk]
            have hid := lookupById_id log i e hlk
            simp [substClosed, hid, hi, h1, closeEntry]
  · intro entry_id station operator downtime category t
    exact ⟨rfl, rfl⟩

/-- Witness for C7: one open event started at t = 0, stopped at
t = 90 seconds. -/
theorem C7_duration_arithmetic_witness :
    ∃ e t, lookupById [c7Open] "a" = some e ∧ e.end_time = none
      ∧ e.start_time = some (IsoStr.valid t)
      ∧ lookupById (core_log_downtime_stop 90 [c7Open] ["a"]).1 "a"
          = some { e with
              end_time := some (90 : Time)
              duration_minutes := some (round2 ((90 - t) / 60)) } := by
  have h := C7_duration_arithmetic 90 [c7Open] ["a"] (by decide) (by decide)
  exact h.1 "a" (by decide)

/-- C8: when the persisted last-cleared date differs from today's date
(per the clock source), `daily_clear_if_needed` empties the
operator-station map and records today as last cleared; any later call
on the same day — after any sequence of set/remove mutations — leaves
the map's contents unchanged, so assignments written after the first
clear are not lost. -/
theorem C8_daily_clear (today : String) (s : MapState)
    (h : s.lastCleared ≠ some today) :
    daily_clear_if_needed today s = ⟨[], some today⟩
    ∧ ∀ ops : List MapOp,
        daily_clear_if_needed today
            (applyMapOps (daily_clear_if_needed today s) ops)
          = applyMapOps (daily_clear_if_needed today s) ops := by
  have h1 : daily_clear_if_needed today s = ⟨[], some today⟩ := by
    unfold daily_clear_if_needed
    rw [if_neg h]
  refine ⟨h1, ?_⟩
  intro ops
  have h2 : (applyMapOps (daily_clear_if_needed today s) ops).lastCleared
      = some today := by
    rw [applyMapOps_lastCleared, h1]
  rw [h1] at h2 ⊢
  unfold daily_clear_if_needed
  rw [if_pos h2]

/-- Witness for C8: yesterday-cleared map with one stale assignment;
a new assignment written after the clear survives the second call. -/
theorem C8_daily_clear_witness :
    daily_clear_if_needed "2024-01-02" ⟨[("Alice", "S1")], some "2024-01-01"⟩
      = ⟨[], some "2024-01-02"⟩
    ∧ daily_clear_if_needed "2024-01-02"
        (applyMapOps (daily_clear_if_needed "2024-01-02"
          ⟨[("Alice", "S1")], some "2024-01-01"⟩) [MapOp.set "Bob" "S2"])
      = applyMapOps (daily_clear_if_needed "2024-01-02"
          ⟨[("Alice", "S1")], some "2024-01-01"⟩) [MapOp.set "Bob" "S2"] := by
  have h := C8_daily_clear "2024-01-02" ⟨[("Alice", "S1")], some "2024-01-01"⟩
    (by decide)
  exact ⟨h.1, h.2 [MapOp.set "Bob" "S2"]⟩

/-- C9: calling the movement log's `log_event` twice in a row with the
same state for the same operator (any stations, any times) makes the
second call a no-op on the stored log that returns `False` to the
caller; and whenever the operator's latest prior state differs, exactly
one event `(operator, station, now, state)` is appended and `True` is
returned. -/
theorem C9_movement_dedup (db : List MoveEvent)
    (operator st1 st2 state : String) (n1 n2 : Time) :
    log_event (log_event db operator st1 state n1).1 operator st2 state n2
      = ((log_event db operator st1 state n1).1, false)
    ∧ (lastStateOf db operator ≠ some state →
        log_event db operator st1 state n1
          = (db ++ [⟨operator, st1, n1, state⟩], true)) := by
  constructor
  · by_cases h : lastStateOf db operator = some state
    · have h1 : log_event db operator st1 state n1 = (db, false) := by
        unfold log_event
        rw [if_pos h]
      rw [h1]
      show log_event db operator st2 state n2 = (db, false)
      unfold log_event
      rw [if_pos h]
    · have h1 : log_event db operator st1 state n1
          = (db ++ [⟨operator, st1, n1, state⟩], true) := by
        unfold log_event
        rw [if_neg h]
      rw [h1]
      show log_event (db ++ [⟨operator, st1, n1, state⟩]) operator st2 state n2
        = (db ++ [⟨operator, st1, n1, state⟩], false)
      unfold log_event
      rw [if_pos (lastStateOf_append_self db operator st1 state n1)]
  · intro h
    unfold log_event
    rw [if_neg h]

/-- Witness for C9: signing in twice in a row stores one event. -/
theorem C9_movement_dedup_witness :
    log_event (log_event [] "Alice" "S1" "sign in" 0).1 "Alice" "S2" "sign in" 1
      = ((log_event [] "Alice" "S1" "sign in" 0).1, false)
    ∧ log_event [] "Alice" "S1" "sign in" 0
        = ([] ++ [⟨"Alice", "S1", 0, "sign in"⟩], true) := by
  have h := C9_movement_dedup [] "Alice" "S1" "S2" "sign in" 0 1
  exact ⟨h.1, h.2 (by decide)⟩

/-- C10 (implicit): `start_downtime` pairs operators with the store's
returned ids positionally via `zip`, truncating at the shorter list:
an operator outside the first `ids.length` positions is left exactly as
it was (silently idle if it had no entry), every operator within the
zipped prefix is marked active, and — for distinct operators — the k-th
operator is mapped to the k-th returned id, whether or not that id was
durably persisted. -/
theorem C10_start_zip_truncation (date_str : String)
    (operators ids : List String) (st : Index) :
    (∀ op, op ∉ operators.take ids.length →
      dget (start_downtime date_str operators ids st) op = dget st op)
    ∧ (∀ op, op ∈ operators.take ids.length →
      (dget (start_downtime date_str operators ids st) op).isSome)
    ∧ (operators.Nodup →
      ∀ (k : Nat) (hk : k < operators.length) (hk2 : k < ids.length),
        dget (start_downtime date_str operators ids st)
            (operators.get ⟨k, hk⟩)
          = some ⟨ids.get ⟨k, hk2⟩, date_str⟩) :=
  ⟨fun op h => start_frame date_str operators ids st op h,
   fun op h => start_marks date_str operators ids st op h,
   fun hnd k hk hk2 => start_positional date_str operators ids st hnd k hk hk2⟩

/-- Witness for C10: two operators, a single returned id — the first
operator is marked active with it, the second stays idle. -/
theorem C10_start_zip_truncation_witness :
    dget (start_downtime "2024-01-02" ["Alice", "Bob"] ["e1"] []) "Bob"
      = dget ([] : Index) "Bob"
    ∧ (dget (start_downtime "2024-01-02" ["Alice", "Bob"] ["e1"] [])
        "Alice").isSome
    ∧ dget (start_downtime "2024-01-02" ["Alice", "Bob"] ["e1"] [])
        (["Alice", "Bob"].get ⟨0, by decide⟩)
      = some ⟨["e1"].get ⟨0, by decide⟩, "2024-01-02"⟩ := by
  have h := C10_start_zip_truncation "2024-01-02" ["Alice", "Bob"] ["e1"] []
  exact ⟨h.1 "Bob" (by decide), h.2.1 "Alice" (by decide),
    h.2.2 (by decide) 0 (by decide) (by decide)⟩
